import Mathlib

/-!
# Verification of `eli5/formatters/html.py`

A shallow embedding in Lean 4 of the weighted-span HTML rendering module
of the `eli5` repository (`src/eli5/formatters/html.py`), together with
theorems settling the specification claims about it.

Modelling conventions:
* Python/numpy floats are modelled by exact rationals (`ℚ`).  The two
  places where genuine IEEE-754 behaviour is observable are modelled
  explicitly: numpy scalar division `0/0` yields `nan` (a warning, not an
  exception) and `x/0` with `x ≠ 0` yields `inf`, both of which Python's
  `'{:.2f}'.format` prints as `nan` / `inf`; and `max()` over an empty
  sequence raises `ValueError`, modelled with `Except`.
* The float power `x ** 0.7` used for the lightness gamma produces
  irrational values; it is modelled by an arbitrary function
  `fpow : ℚ → ℚ` threaded through the definitions.  IEEE-754 guarantees
  `pow(1.0, y) = 1.0` exactly; theorems that depend on this take it as a
  hypothesis `fpow 1 = 1`, and all other theorems hold for every `fpow`.
* Numbers are rendered with a digit-level model of Python's fixed-point
  formatting (`'{:.2f}'`, `'{:.3f}'`, `'{:.2%}'`), using round-half-even
  on the exact rational value.
-/

/-- Digit character for `d % 10`: `Char.ofNat (48 + d % 10)`, i.e. one of
`'0'`–`'9'`. -/
def mkDigit (d : ℕ) : Char := Char.ofNat (48 + d % 10)

/-- Decimal digits of `n`, most significant first; fuel-indexed structural
recursion (fuel `n + 1` always suffices). -/
def natDigitsAux : ℕ → ℕ → List Char
  | 0, _ => []
  | f + 1, n => if n < 10 then [mkDigit n] else natDigitsAux f (n / 10) ++ [mkDigit (n % 10)]

/-- Decimal representation of a natural number, as produced by Python's
`'{}'.format` on a non-negative integer. -/
def natStr (n : ℕ) : String := String.mk (natDigitsAux (n + 1) n)

/-- Decimal representation of an integer. -/
def intStr (i : ℤ) : String := if i < 0 then "-" ++ natStr i.natAbs else natStr i.natAbs

/-- Left-pad a string with `'0'` up to length `len`. -/
def padZeros (len : ℕ) (s : String) : String :=
  String.mk (List.replicate (len - s.length) '0') ++ s

/-- Round to the nearest integer, ties to even — the rounding used by
Python's fixed-point float formatting. -/
def roundHalfEven (q : ℚ) : ℤ :=
  let f := ⌊q⌋
  let r := q - f
  if r < 1 / 2 then f else if 1 / 2 < r then f + 1 else if f % 2 = 0 then f else f + 1

/-- Python `'{:.<prec>f}'.format(q)` on the exact rational value `q`
(`prec > 0`): sign, integer part, `'.'`, `prec` fractional digits,
round-half-even. -/
def formatFixed (prec : ℕ) (q : ℚ) : String :=
  let n := roundHalfEven (q * (10 : ℚ) ^ prec)
  let sgn := if q < 0 then "-" else ""
  let m := n.natAbs
  sgn ++ natStr (m / 10 ^ prec) ++ "." ++ padZeros prec (natStr (m % 10 ^ prec))

/-- Python `'{:.2%}'.format(q)`: multiply by 100, format with two decimal
places, append `'%'`. -/
def formatPct (q : ℚ) : String := formatFixed 2 (q * 100) ++ "%"

/-- Python `''.join(parts)`: concatenation of a list of strings. -/
def joinAll : List String → String
  | [] => ""
  | x :: xs => x ++ joinAll xs

/-- Python `sep.join(parts)`: the parts interleaved with `sep`. -/
def joinSep (sep : String) : List String → String
  | [] => ""
  | [x] => x
  | x :: y :: xs => x ++ sep ++ joinSep sep (y :: xs)

/-- `cgi.escape` on one character: `&`, `<`, `>`, `"` become entities, every
other character is kept.  `cgi.escape(text, quote=True)` performs the four
corresponding sequential `str.replace` passes (`&` first); since no
replacement output contains a target of a later pass, the net effect is
exactly this per-character map.  Note the apostrophe is NOT escaped. -/
def escapeChar (c : Char) : String :=
  if c = '&' then "&amp;"
  else if c = '<' then "&lt;"
  else if c = '>' then "&gt;"
  else if c = '"' then "&quot;"
  else String.singleton c

/-- `html_escape(text) = cgi.escape(text, quote=True)` from the source. -/
def html_escape (text : String) : String := joinAll (text.data.map escapeChar)

/-- `_hue(weight)`: `120 if weight > 0 else 0`. -/
def _hue (weight : ℚ) : ℤ := if 0 < weight then 120 else 0

/-- The value `min_opacity + (1 - min_opacity) * (abs(weight)/weight_range)`
computed by `_weight_opacity` (with `min_opacity = 0.8`), before string
formatting; meaningful only for `weight_range ≠ 0`. -/
def _weight_opacity_val (weight weight_range : ℚ) : ℚ :=
  4 / 5 + (1 - 4 / 5) * (|weight| / weight_range)

/-- `_weight_opacity(weight, weight_range)`: the string
`'{:.2f}'.format(min_opacity + (1-min_opacity) * abs(weight)/weight_range)`.
When `weight_range = 0` the numpy float division yields `nan` (for
`weight = 0`, printed `"nan"`) or `inf` (otherwise, printed `"inf"`)
without raising. -/
def _weight_opacity (weight weight_range : ℚ) : String :=
  if weight_range = 0 then (if weight = 0 then "nan" else "inf")
  else formatFixed 2 (_weight_opacity_val weight weight_range)

/-- The lightness value `1.0 - (1 - min_lightness) * rel_weight` of
`_weight_color`, where `rel_weight = (abs(weight)/weight_range) ** 0.7` is
modelled through `fpow`. -/
def _weight_color_lightness (fpow : ℚ → ℚ) (weight weight_range min_lightness : ℚ) : ℚ :=
  1 - (1 - min_lightness) * fpow (|weight| / weight_range)

/-- `_weight_color(weight, weight_range, min_lightness)`: the string
`'hsl({}, {:.2%}, {:.2%})'.format(hue, saturation, lightness)` with
`saturation = 1`.  Used by the renderer only with `weight_range > 0`
(every call site has `|weight|` above the zero tolerance and
`weight_range ≥ |weight|`). -/
def _weight_color (fpow : ℚ → ℚ) (weight weight_range min_lightness : ℚ) : String :=
  "hsl(" ++ intStr (_hue weight) ++ ", " ++ formatPct 1 ++ ", "
    ++ formatPct (_weight_color_lightness fpow weight weight_range min_lightness) ++ ")"

/-- `np.isclose(weight, 0.)`: with numpy's defaults `rtol = 1e-5`,
`atol = 1e-8` and second argument `0`, this is `|weight| ≤ 1e-8`. -/
def isCloseZero (weight : ℚ) : Bool := |weight| ≤ 1 / 100000000

/-- `_colorize(token, weight, weight_range)`: the token escaped and wrapped
in a `<span>`; a near-zero weight gets only an opacity style, any other
weight gets a background colour (at `min_lightness = 0.6`), an opacity and
a `title` attribute holding the weight formatted `'{:.3f}'`. -/
def _colorize (fpow : ℚ → ℚ) (token : String) (weight weight_range : ℚ) : String :=
  if isCloseZero weight then
    "<span style=\"opacity: " ++ _weight_opacity weight weight_range ++ "\">"
      ++ html_escape token ++ "</span>"
  else
    "<span style=\"background-color: " ++ _weight_color fpow weight weight_range (3 / 5)
      ++ "; opacity: " ++ _weight_opacity weight weight_range
      ++ "\" title=\"" ++ formatFixed 3 weight ++ "\">"
      ++ html_escape token ++ "</span>"

/-- The identity, a concrete stand-in for `fpow` in closed statements; it
agrees with the IEEE float power `x ** 0.7` at the fixed points `0` and
`1`, the only places where closed statements below evaluate it. -/
def idPow (x : ℚ) : ℚ := x

/-- One element of the `weighted_spans` list: a feature id, a list of
half-open `(start, end)` index pairs (Python ints, hence `ℤ`), and a
signed weight. -/
structure WSpan where
  feature : String
  ranges : List (ℤ × ℤ)
  weight : ℚ

/-- Python/numpy slice-index normalization for an array of length `N`: a
negative index is shifted by `N`, then the result is clamped into
`[0, N]`.  `a[start:end]` touches exactly the indices
`[sliceBound N start, sliceBound N end)`. -/
def sliceBound (N : ℕ) (x : ℤ) : ℕ :=
  (max (if x < 0 then x + N else x) 0).toNat.min N

/-- Worker for `addSlice`: `k` is the index of the first element of the
remaining list in the original array. -/
def addSliceGo (w : ℚ) (s e : ℕ) : ℕ → List ℚ → List ℚ
  | _, [] => []
  | k, v :: vs => (if s ≤ k ∧ k < e then v + w else v) :: addSliceGo w s e (k + 1) vs

/-- `a[s:e] += w` on an array whose slice bounds are already normalized:
add `w` to every index `i` with `s ≤ i < e`. -/
def addSlice (w : ℚ) (s e : ℕ) (a : List ℚ) : List ℚ := addSliceGo w s e 0 a

/-- The inner loop `for start, end in spans: char_weights[start:end] += weight`
of `render_weighted_spans`, for one weighted span. -/
def applyRanges (w : ℚ) (N : ℕ) (rs : List (ℤ × ℤ)) (a : List ℚ) : List ℚ :=
  rs.foldl (fun a r => addSlice w (sliceBound N r.1) (sliceBound N r.2) a) a

/-- `char_weights`: `np.zeros(len(doc))` followed by the double loop adding
each span's weight over each of its `(start, end)` slices. -/
def charWeights (N : ℕ) (spans : List WSpan) : List ℚ :=
  spans.foldl (fun a sp => applyRanges sp.weight N sp.ranges a) (List.replicate N 0)

/-- Whether normalized (clamped) range `r` covers index `i`. -/
def inClamp (N : ℕ) (r : ℤ × ℤ) (i : ℕ) : Bool :=
  sliceBound N r.1 ≤ i && i < sliceBound N r.2

/-- Whether range `r` covers index `i` (`start ≤ i < end`), taken at face
value without clamping. -/
def coverB (r : ℤ × ℤ) (i : ℕ) : Bool :=
  decide (r.1 ≤ (i : ℤ)) && decide ((i : ℤ) < r.2)

/-- Whether span `sp` covers document index `i` (through at least one of
its ranges). -/
def coversB (sp : WSpan) (i : ℕ) : Bool := sp.ranges.any (fun r => coverB r i)

/-- Two ranges are disjoint as half-open integer intervals exactly when
the smaller end does not exceed the larger start. -/
def RDisj (r1 r2 : ℤ × ℤ) : Prop := min r1.2 r2.2 ≤ max r1.1 r2.1

instance : DecidableRel RDisj := fun a b => by
  unfold RDisj; exact inferInstance

/-- The comparison Python's `sorted` uses on the `(feature, weight)` pairs:
lexicographic tuple order. -/
def pairLe (a b : String × ℚ) : Prop := a.1 < b.1 ∨ (a.1 = b.1 ∧ a.2 ≤ b.2)

instance : DecidableRel pairLe := fun a b => by
  unfold pairLe; exact inferInstance

instance : IsTotal (String × ℚ) pairLe where
  total a b := by
    rcases lt_trichotomy a.1 b.1 with h | h | h
    · exact Or.inl (Or.inl h)
    · rcases le_total a.2 b.2 with h2 | h2
      · exact Or.inl (Or.inr ⟨h, h2⟩)
      · exact Or.inr (Or.inr ⟨h.symm, h2⟩)
    · exact Or.inr (Or.inl h)

instance : IsTrans (String × ℚ) pairLe where
  trans a b c hab hbc := by
    rcases hab with h1 | ⟨h1, h1'⟩ <;> rcases hbc with h2 | ⟨h2, h2'⟩
    · exact Or.inl (h1.trans h2)
    · exact Or.inl (h2 ▸ h1)
    · exact Or.inl (h1 ▸ h2)
    · exact Or.inr ⟨h1.trans h2, h1'.trans h2'⟩

instance : IsAntisymm (String × ℚ) pairLe where
  antisymm a b hab hba := by
    rcases hab with h1 | ⟨h1, h1'⟩ <;> rcases hba with h2 | ⟨h2, h2'⟩
    · exact absurd (h1.trans h2) (lt_irrefl _)
    · exact absurd h1 (h2 ▸ lt_irrefl _)
    · exact absurd h2 (h1 ▸ lt_irrefl _)
    · exact Prod.ext h1 (le_antisymm h1' h2')

/-- `not_found_weights`: the `(feature, weight)` items of the `not_found`
mapping with `not np.isclose(weight, 0.)`, sorted by Python's `sorted`.
The model takes the mapping as an association list (its keys are distinct
in a Python dict).  Python's sort is a stable comparison sort for the
total, antisymmetric lexicographic order on pairs, for which the sorted
permutation is unique, so insertion sort produces the identical list. -/
def notFoundWeights (nf : List (String × ℚ)) : List (String × ℚ) :=
  List.insertionSort pairLe (nf.filter (fun p => !isCloseZero p.2))

/-- Python `max` over a non-empty collection, given as head and tail. -/
def listMax (x : ℚ) (xs : List ℚ) : ℚ := xs.foldl max x

/-- `weight_range = max(abs(x) for x in char_weights)`, extended by the
maximal absolute not-found weight when `not_found_weights` is non-empty.
`max()` over an empty sequence raises `ValueError`, hence `Except`. -/
def weightRange (cw : List ℚ) (nfw : List (String × ℚ)) : Except String ℚ :=
  match cw with
  | [] => .error "ValueError: max() arg is an empty sequence"
  | x :: xs =>
    let wr := listMax |x| (xs.map (fun v => |v|))
    match nfw with
    | [] => .ok wr
    | y :: ys => .ok (max wr (listMax |y.2| (ys.map (fun p => |p.2|))))

/-- `render_weighted_spans(weighted_spans_data)` with the record fields
`document`, `weighted_spans`, `not_found` passed separately: aggregate the
char weights, filter and sort the not-found weights, compute the weight
range, colorize each document character, prepend the space-joined
not-found block when non-empty, and `' '.join` the parts. -/
def render_weighted_spans (fpow : ℚ → ℚ) (doc : String) (wspans : List WSpan)
    (nf : List (String × ℚ)) : Except String String :=
  let cw := charWeights doc.length wspans
  let nfw := notFoundWeights nf
  match weightRange cw nfw with
  | .error e => .error e
  | .ok wr =>
    let units := joinAll ((doc.data.zip cw).map
      (fun p => _colorize fpow (String.singleton p.1) p.2 wr))
    .ok (if nfw.isEmpty then units
         else joinSep " " (nfw.map (fun p => _colorize fpow p.1 p.2 wr))
              ++ " " ++ units)

/-- `explanation.pop(field, None)` on a dict modelled as an association
list with distinct keys: remove the binding of `field` (a no-op when the
key is absent, matching the `None` default). -/
def dictPop (field : String) (d : List (String × α)) : List (String × α) :=
  d.filter (fun p => p.1 ≠ field)

/-- The loop `for field in fields.ALL: if field not in show:
explanation.pop(field, None)` applied to one dict value. -/
def popFields (fieldsALL shown : List String) (d : List (String × α)) : List (String × α) :=
  fieldsALL.foldl (fun d f => if f ∈ shown then d else dictPop f d) d

/-- A heap of Python dict objects: index = object identity.  Python dicts
are mutable heap objects, so the frame property of `format_as_html`
(claim about the caller's explanation) is stated over this explicit
heap. -/
abbrev DictHeap (α : Type) : Type := List (List (String × α))

/-- `format_as_html(explanation, show=...)` up to the external template
call: `explanation = copy.deepcopy(explanation)` allocates a fresh dict
with the same contents at the end of the heap, the pop loop mutates that
fresh copy in place, and the filtered copy is what is handed to
`template.render(**explanation)`.  Returns the final heap together with
the dict passed to the (external, out of scope) template renderer.
`fields.ALL` comes from the `eli5.formatters.fields` module, which is not
part of the rendering core; it is taken as a parameter. -/
def format_as_html (fieldsALL shown : List String) (heap : DictHeap α) (r : ℕ) :
    DictHeap α × List (String × α) :=
  let expl := heap.getD r []
  let heap2 := heap ++ [expl]
  let r2 := heap.length
  let heap3 := heap2.set r2 (popFields fieldsALL shown (heap2.getD r2 []))
  (heap3, heap3.getD r2 [])

/-- Position of a maximal space run inside the feature text, as passed to
the `replacer` callback of `_format_single_feature`. -/
inductive Side where
  | left
  | right
  | center
deriving DecidableEq

/-- The `'margin: 0 {} 0 {}'.format(*margins)` string of the replacer,
with `margins = {'left': (m, 0), 'right': (0, m), 'center': (m, m)}[side]`
and `m = '0.1em'` (CSS order: top right bottom left). -/
def marginStr : Side → String
  | .left => "margin: 0 0.1em 0 0"
  | .right => "margin: 0 0 0 0.1em"
  | .center => "margin: 0 0.1em 0 0.1em"

/-- `n` copies of `s` concatenated (`'&emsp;' * n_spaces`). -/
def repeatStr (s : String) (n : ℕ) : String := joinAll (List.replicate n s)

/-- The `replacer(n_spaces, side)` closure of `_format_single_feature`: a
span whose background colour is `hsl(_hue(weight), 80%, 70%)`, whose
margins depend on the side, whose title names the number of spaces, and
whose content is `n_spaces` em-spaces. -/
def spaceReplacer (weight : ℚ) (n : ℕ) (side : Side) : String :=
  "<span style=\"background-color: hsl(" ++ intStr (_hue weight) ++ ", 80%, 70%); "
    ++ marginStr side ++ "\" title=\""
    ++ (if n = 1 then "A space symbol" else natStr n ++ " space symbols")
    ++ "\">" ++ repeatStr "&emsp;" n ++ "</span>"

/-- Modelled from the spec: `replace_spaces` lives in
`eli5.formatters.utils`, which is not under `src/`.  Per the spec, every
maximal run of literal space characters is replaced by
`repl (run length) side`, where the side is `left` for a run at the start
of the text, `right` for a run at the end, and `center` otherwise (a run
that is the whole text counts as leading).  `atStart` records whether the
current suffix begins at position 0 of the text. -/
def replaceSpacesGo (repl : ℕ → Side → String) (atStart : Bool) : List Char → String
  | [] => ""
  | c :: cs =>
    if c = ' ' then
      let n := 1 + (cs.takeWhile (fun d => d = ' ')).length
      let rest := cs.drop (n - 1)
      let side := if atStart then Side.left else if rest.isEmpty then Side.right else Side.center
      repl n side ++ replaceSpacesGo repl false rest
    else String.singleton c ++ replaceSpacesGo repl false cs
  termination_by l => l.length
  decreasing_by
  · simp [List.length_drop]; omega
  · simp

/-- Modelled from the spec: `replace_spaces(s, replacer)` from
`eli5.formatters.utils` (not under `src/`). -/
def replace_spaces (s : String) (repl : ℕ → Side → String) : String :=
  replaceSpacesGo repl true s.data

/-- `_format_single_feature(feature, weight)`: escape the feature text and
visualize its space runs with the weight-hued replacer spans. -/
def _format_single_feature (feature : String) (weight : ℚ) : String :=
  replace_spaces (html_escape feature) (spaceReplacer weight)

/-- One candidate of an unhashed (hash-collided) feature: a dict with
`name` and `sign` entries. -/
structure Candidate where
  name : String
  sign : ℚ

/-- Modelled from the spec: `format_signed` from `eli5.formatters.text`
(not under `src/`): apply `fmt` to the candidate's name and prepend a
negation marker when `sign < 0`.  The spec fixes only that a leading
negation marker is rendered for a negative sign; the concrete marker
glyph `"(-)"` is immaterial to the claims, which concern only the
ellipsis/tooltip structure. -/
def format_signed (c : Candidate) (fmt : String → String) : String :=
  (if c.sign < 0 then "(-)" else "") ++ fmt c.name

/-- `_format_unhashed_feature(feature, weight)`: show the first candidate
sign-formatted through `_format_single_feature`; when further candidates
remain, append an ellipsis span whose title is the newline-joined list of
the remaining candidates, each sign-formatted (with no name formatter)
and individually escaped. -/
def _format_unhashed_feature (feature : List Candidate) (weight : ℚ) : String :=
  match feature with
  | [] => ""
  | first :: rest =>
    let html := format_signed first (fun x => _format_single_feature x weight)
    if rest.isEmpty then html
    else html ++ " <span title=\""
      ++ String.intercalate "\n" (rest.map (fun f => html_escape (format_signed f id)))
      ++ "\">&hellip;</span>"

theorem length_addSliceGo (w : ℚ) (s e : ℕ) :
    ∀ (k : ℕ) (a : List ℚ), (addSliceGo w s e k a).length = a.length := by
  intro k a
  induction a generalizing k with
  | nil => rfl
  | cons v vs ih => simp [addSliceGo, ih]

theorem getD_addSliceGo (w : ℚ) (s e : ℕ) :
    ∀ (a : List ℚ) (k i : ℕ), i < a.length →
      (addSliceGo w s e k a).getD i 0 =
        if s ≤ k + i ∧ k + i < e then a.getD i 0 + w else a.getD i 0 := by
  intro a
  induction a with
  | nil => intro k i hi; simp at hi
  | cons v vs ih =>
    intro k i hi
    match i with
    | 0 => simp [addSliceGo]
    | j + 1 =>
      have hj : j < vs.length := by simpa using hi
      have := ih (k + 1) j hj
      simp only [addSliceGo, List.getD_cons_succ]
      rw [this]
      have harith : k + 1 + j = k + (j + 1) := by omega
      rw [harith]

theorem length_applyRanges (w : ℚ) (N : ℕ) :
    ∀ (rs : List (ℤ × ℤ)) (a : List ℚ), (applyRanges w N rs a).length = a.length := by
  intro rs
  induction rs with
  | nil => intro a; rfl
  | cons r rs ih =>
    intro a
    show (applyRanges w N rs (addSlice w _ _ a)).length = a.length
    rw [ih, addSlice, length_addSliceGo]

theorem getD_applyRanges (w : ℚ) (N : ℕ) :
    ∀ (rs : List (ℤ × ℤ)) (a : List ℚ) (i : ℕ), i < a.length →
      (applyRanges w N rs a).getD i 0 =
        a.getD i 0 + w * ((rs.countP (fun r => inClamp N r i) : ℕ) : ℚ) := by
  intro rs
  induction rs with
  | nil => intro a i hi; simp [applyRanges]
  | cons r rs ih =>
    intro a i hi
    have hlen : i < (addSlice w (sliceBound N r.1) (sliceBound N r.2) a).length := by
      rw [addSlice, length_addSliceGo]; exact hi
    have step : (applyRanges w N (r :: rs) a) =
        applyRanges w N rs (addSlice w (sliceBound N r.1) (sliceBound N r.2) a) := rfl
    rw [step, ih _ i hlen, addSlice, getD_addSliceGo w _ _ a 0 i hi]
    simp only [Nat.zero_add]
    by_cases h1 : sliceBound N r.1 ≤ i ∧ i < sliceBound N r.2
    · have hb : inClamp N r i = true := by simp [inClamp, h1.1, h1.2]
      rw [if_pos h1, List.countP_cons, hb]
      simp only [if_true]
      push_cast
      ring
    · have hb : inClamp N r i = false := by simp only [inClamp]; simp; omega
      rw [if_neg h1, List.countP_cons, hb]
      simp only [Bool.false_eq_true, if_false]
      push_cast
      ring

theorem length_charWeights (N : ℕ) (spans : List WSpan) :
    (charWeights N spans).length = N := by
  suffices h : ∀ (sps : List WSpan) (a : List ℚ),
      (sps.foldl (fun a sp => applyRanges sp.weight N sp.ranges a) a).length = a.length by
    rw [charWeights, h, List.length_replicate]
  intro sps
  induction sps with
  | nil => intro a; rfl
  | cons sp sps ih => intro a; rw [List.foldl_cons, ih, length_applyRanges]

theorem getD_charWeights (N : ℕ) (spans : List WSpan) (i : ℕ) (hi : i < N) :
    (charWeights N spans).getD i 0 =
      (spans.map (fun sp =>
        sp.weight * ((sp.ranges.countP (fun r => inClamp N r i) : ℕ) : ℚ))).sum := by
  suffices h : ∀ (sps : List WSpan) (a : List ℚ), i < a.length →
      (sps.foldl (fun a sp => applyRanges sp.weight N sp.ranges a) a).getD i 0 =
        a.getD i 0 +
          (sps.map (fun sp =>
            sp.weight * ((sp.ranges.countP (fun r => inClamp N r i) : ℕ) : ℚ))).sum by
    rw [charWeights, h _ _ (by simpa using hi)]
    simp
  intro sps
  induction sps with
  | nil => intro a _; simp
  | cons sp sps ih =>
    intro a ha
    have hlen : i < (applyRanges sp.weight N sp.ranges a).length := by
      rw [length_applyRanges]; exact ha
    rw [List.foldl_cons, ih _ hlen, getD_applyRanges _ _ _ _ _ ha]
    simp only [List.map_cons, List.sum_cons]
    ring

theorem sliceBound_of_bounds (N : ℕ) (x : ℤ) (h0 : 0 ≤ x) (hN : x ≤ (N : ℤ)) :
    sliceBound N x = x.toNat := by
  rw [sliceBound, if_neg (not_lt.mpr h0), max_eq_left h0]
  exact min_eq_left (Int.toNat_le.mpr hN)

theorem inClamp_eq_coverB (N : ℕ) (r : ℤ × ℤ) (i : ℕ)
    (h0 : 0 ≤ r.1) (hse : r.1 ≤ r.2) (hN : r.2 ≤ (N : ℤ)) :
    inClamp N r i = coverB r i := by
  rw [inClamp, coverB, sliceBound_of_bounds N r.1 h0 (hse.trans hN),
    sliceBound_of_bounds N r.2 (h0.trans hse) hN]
  have h1 : (r.1.toNat ≤ i) ↔ (r.1 ≤ (i : ℤ)) := Int.toNat_le
  have h2 : (i < r.2.toNat) ↔ ((i : ℤ) < r.2) := Int.lt_toNat
  simp [h1, h2]

theorem countP_coverB_of_disjoint (i : ℕ) :
    ∀ (rs : List (ℤ × ℤ)), rs.Pairwise RDisj →
      rs.countP (fun r => coverB r i) = if rs.any (fun r => coverB r i) then 1 else 0 := by
  intro rs
  induction rs with
  | nil => intro _; rfl
  | cons r rs ih =>
    intro hp
    rcases List.pairwise_cons.mp hp with ⟨hd, htl⟩
    by_cases hc : coverB r i
    · have hz : rs.countP (fun r => coverB r i) = 0 := by
        rw [List.countP_eq_zero]
        intro r' hr'
        have hdisj := hd r' hr'
        rw [RDisj] at hdisj
        simp only [coverB, Bool.and_eq_true, decide_eq_true_eq] at hc ⊢
        intro hcontra
        rcases hc with ⟨ha1, ha2⟩
        rcases hcontra with ⟨hb1, hb2⟩
        rcases le_total r.2 r'.2 with h | h <;> rcases le_total r.1 r'.1 with h' | h' <;>
          simp [min_eq_left, min_eq_right, max_eq_left, max_eq_right, h, h'] at hdisj <;>
          omega
      rw [List.countP_cons, hz, if_pos hc]
      simp [List.any_cons, hc]
    · have hcf : coverB r i = false := by simpa using hc
      rw [List.countP_cons, ih htl]
      have hany : (r :: rs).any (fun r => coverB r i) = rs.any (fun r => coverB r i) := by
        rw [List.any_cons, hcf, Bool.false_or]
      rw [hany, hcf]
      simp

/-- C1 (amended): a span range `(start, end)` that violates
`0 ≤ start ≤ end ≤ N` does NOT make the span aggregation fail — there is
no `ValidationError` anywhere in `render_weighted_spans`; instead
`char_weights[start:end] += weight` silently clamps the range via
Python/numpy slice semantics (negative indices shifted by `N`, then both
bounds clamped into `[0, N]`): the aggregated array always has length `N`
and every entry is the sum over spans of the span weight times the number
of its ranges whose CLAMPED form covers the index. -/
theorem c1_out_of_bounds_ranges_are_clamped (N : ℕ) (spans : List WSpan) :
    (charWeights N spans).length = N ∧
    ∀ i, i < N → (charWeights N spans).getD i 0 =
      (spans.map (fun sp =>
        sp.weight * ((sp.ranges.countP (fun r => inClamp N r i) : ℕ) : ℚ))).sum :=
  ⟨length_charWeights N spans, fun i hi => getD_charWeights N spans i hi⟩

/-- C1 counterexample: for the length-2 document `"ab"` and the single
span `("f1", [(0, 5)], 1.0)` whose range end `5` is far out of bounds,
the claim says the call must fail with a `ValidationError`; instead the
aggregation silently clamps `(0, 5)` to `(0, 2)`, producing `[1, 1]`, and
the full rendering succeeds. -/
theorem c1_counterexample :
    charWeights 2 [⟨"f1", [(0, 5)], 1⟩] = [1, 1] ∧
    render_weighted_spans idPow "ab" [⟨"f1", [(0, 5)], 1⟩] [] =
      .ok ("<span style=\"background-color: hsl(120, 100.00%, 60.00%); opacity: 1.00\""
        ++ " title=\"1.000\">a</span>"
        ++ "<span style=\"background-color: hsl(120, 100.00%, 60.00%); opacity: 1.00\""
        ++ " title=\"1.000\">b</span>") := by
  constructor
  · with_unfolding_all decide
  · with_unfolding_all rfl

/-- C1 witness: the amended theorem applied to the out-of-bounds span
`("f1", [(3, 7)], 1.0)` over a document of length 2: both slice bounds
clamp to 2, so the range covers nothing and index 0 aggregates to 0. -/
theorem c1_witness :
    (charWeights 2 [⟨"f1", [(3, 7)], 1⟩]).length = 2 ∧
    (charWeights 2 [⟨"f1", [(3, 7)], 1⟩]).getD 0 0 =
      (([⟨"f1", [(3, 7)], 1⟩] : List WSpan).map (fun sp =>
        sp.weight * ((sp.ranges.countP (fun r => inClamp 2 r 0) : ℕ) : ℚ))).sum :=
  ⟨(c1_out_of_bounds_ranges_are_clamped 2 [⟨"f1", [(3, 7)], 1⟩]).1,
   (c1_out_of_bounds_ranges_are_clamped 2 [⟨"f1", [(3, 7)], 1⟩]).2 0 (by decide)⟩

/-- C5: for a document of length `N` and well-formed spans (each range
within `0 ≤ start ≤ end ≤ N`, and each span's ranges pairwise disjoint,
as the claim's own reading "a feature may contribute through multiple
disjoint ranges" prescribes), the aggregated array has length exactly `N`
and entry `i` is the sum of the weights of the spans covering `i`
(overlapping spans sum). -/
theorem c5_char_weights_are_covering_sums (N : ℕ) (spans : List WSpan)
    (hin : ∀ sp ∈ spans, ∀ r ∈ sp.ranges, 0 ≤ r.1 ∧ r.1 ≤ r.2 ∧ r.2 ≤ (N : ℤ))
    (hdisj : ∀ sp ∈ spans, sp.ranges.Pairwise RDisj) :
    (charWeights N spans).length = N ∧
    ∀ i, i < N → (charWeights N spans).getD i 0 =
      (spans.map (fun sp => if coversB sp i then sp.weight else 0)).sum := by
  refine ⟨length_charWeights N spans, fun i hi => ?_⟩
  rw [getD_charWeights N spans i hi]
  refine congrArg List.sum (List.map_congr_left ?_)
  intro sp hsp
  have hcnt : sp.ranges.countP (fun r => inClamp N r i) =
      sp.ranges.countP (fun r => coverB r i) := by
    refine List.countP_congr ?_
    intro r hr
    rcases hin sp hsp r hr with ⟨h0, hse, hN⟩
    rw [inClamp_eq_coverB N r i h0 hse hN]
  rw [hcnt, countP_coverB_of_disjoint i sp.ranges (hdisj sp hsp)]
  rw [coversB]
  by_cases hany : sp.ranges.any (fun r => coverB r i)
  · rw [if_pos hany, if_pos hany]
    simp
  · rw [if_neg hany, if_neg hany]
    simp

/-- C5 witness: the span `("f1", [(0, 1)], 1.0)` over a document of
length 2 is in bounds with (trivially) pairwise-disjoint ranges; the
aggregation has length 2 and index 0 sums to the covering weight 1. -/
theorem c5_witness :
    (charWeights 2 [⟨"f1", [(0, 1)], 1⟩]).length = 2 ∧
    (charWeights 2 [⟨"f1", [(0, 1)], 1⟩]).getD 0 0 =
      (([⟨"f1", [(0, 1)], 1⟩] : List WSpan).map
        (fun sp => if coversB sp 0 then sp.weight else 0)).sum :=
  ⟨(c5_char_weights_are_covering_sums 2 [⟨"f1", [(0, 1)], 1⟩]
      (by decide) (by decide)).1,
   (c5_char_weights_are_covering_sums 2 [⟨"f1", [(0, 1)], 1⟩]
      (by decide) (by decide)).2 0 (by decide)⟩

theorem string_eq_empty_of_length_eq_zero (s : String) (h : s.length = 0) : s = "" := by
  cases s with
  | mk l =>
    have : l.length = 0 := h
    rw [List.length_eq_zero] at this
    rw [this]

theorem notFoundWeights_nil : notFoundWeights [] = [] := rfl

theorem listMax_abs_replicate0 :
    ∀ (m : ℕ) (x : ℚ), x = 0 →
      listMax x ((List.replicate m (0 : ℚ)).map (fun v => |v|)) = 0 := by
  intro m
  induction m with
  | zero => intro x hx; simp [listMax, hx]
  | succ m ih =>
    intro x hx
    rw [List.replicate_succ, List.map_cons]
    show listMax (max x |(0 : ℚ)|) ((List.replicate m (0 : ℚ)).map (fun v => |v|)) = 0
    exact ih _ (by rw [hx, abs_zero, max_self])

theorem zip_replicate_eq_map (q : ℚ) :
    ∀ (l : List Char), l.zip (List.replicate l.length q) = l.map (fun c => (c, q)) := by
  intro l
  induction l with
  | nil => rfl
  | cons c cs ih => simp [List.replicate_succ, ih]

theorem colorize_zero_zero (fpow : ℚ → ℚ) (tok : String) :
    _colorize fpow tok 0 0 =
      "<span style=\"opacity: nan\">" ++ html_escape tok ++ "</span>" := by
  have h1 : isCloseZero 0 = true := by with_unfolding_all decide
  have h2 : _weight_opacity 0 0 = "nan" := by with_unfolding_all rfl
  rw [_colorize, if_pos h1, h2]
  with_unfolding_all rfl

/-- C4 (amended): `render_weighted_spans` is total for every NON-empty
document, whatever the spans (even out-of-bounds) and the not-found
mapping; but on an empty document (`N = 0`) it is not total — the line
`weight_range = max(abs(x) for x in char_weights)` raises
`ValueError: max() arg is an empty sequence`. -/
theorem c4_total_on_nonempty_documents (fpow : ℚ → ℚ) (doc : String)
    (spans : List WSpan) (nf : List (String × ℚ)) (hdoc : doc ≠ "") :
    (render_weighted_spans fpow doc spans nf).isOk = true := by
  have hlen : (charWeights doc.length spans).length = doc.length :=
    length_charWeights doc.length spans
  cases hcw : charWeights doc.length spans with
  | nil =>
    rw [hcw] at hlen
    exact absurd (string_eq_empty_of_length_eq_zero doc hlen.symm) hdoc
  | cons x xs =>
    cases hnf : notFoundWeights nf with
    | nil => simp [render_weighted_spans, weightRange, hcw, hnf, Except.isOk, Except.toBool]
    | cons y ys =>
      simp [render_weighted_spans, weightRange, hcw, hnf, Except.isOk, Except.toBool]

/-- C4 counterexample: on the empty document with empty span list and
empty not-found mapping — a well-formed input — the rendering does not
succeed: `max()` over the empty aggregated array raises `ValueError`. -/
theorem c4_counterexample :
    render_weighted_spans idPow "" [] [] =
      .error "ValueError: max() arg is an empty sequence" := by
  with_unfolding_all rfl

/-- C4 witness: totality on a concrete non-empty document. -/
theorem c4_witness : (render_weighted_spans idPow "a" [] []).isOk = true :=
  c4_total_on_nonempty_documents idPow "a" [] [] (by decide)

/-- C2 (amended): when the aggregated array of a non-empty document is
all zeros and the not-found set is empty (so `weight_range = 0`),
rendering does succeed and no unit carries a background-color style —
but the relative weight is NOT treated as 0: the numpy division `0/0`
yields `nan`, so every unit's opacity renders as the string `"nan"`, not
as `min_opacity` (0.8). -/
theorem c2_zero_range_renders_nan_opacity (fpow : ℚ → ℚ) (doc : String)
    (spans : List WSpan) (hdoc : doc ≠ "")
    (hzero : charWeights doc.length spans = List.replicate doc.length 0) :
    render_weighted_spans fpow doc spans [] =
      .ok (joinAll (doc.data.map (fun c =>
        "<span style=\"opacity: nan\">" ++ html_escape (String.singleton c) ++ "</span>"))) := by
  obtain ⟨m, hm⟩ : ∃ m, doc.length = m + 1 := by
    cases hn : doc.length with
    | zero => exact absurd (string_eq_empty_of_length_eq_zero doc hn) hdoc
    | succ m => exact ⟨m, rfl⟩
  have hdata : doc.data.length = m + 1 := hm
  rw [hm] at hzero
  simp only [render_weighted_spans, notFoundWeights_nil, hm, hzero, List.replicate_succ]
  simp only [weightRange]
  rw [listMax_abs_replicate0 m _ abs_zero]
  simp only [List.isEmpty_nil, if_true]
  rw [show (0 : ℚ) :: List.replicate m (0 : ℚ) = List.replicate (m + 1) (0 : ℚ) from
    (List.replicate_succ 0 m).symm]
  rw [← hdata, zip_replicate_eq_map, List.map_map]
  refine congrArg Except.ok (congrArg joinAll (List.map_congr_left ?_))
  intro c _
  exact colorize_zero_zero fpow (String.singleton c)

/-- C2 counterexample: for the one-character document `"a"` with no
spans and no not-found weights, rendering succeeds but the unit's
opacity is the string `"nan"` — not `"0.80"` (`min_opacity`), as the
claim states. -/
theorem c2_counterexample :
    render_weighted_spans idPow "a" [] [] =
      .ok "<span style=\"opacity: nan\">a</span>" ∧
    render_weighted_spans idPow "a" [] [] ≠
      .ok "<span style=\"opacity: 0.80\">a</span>" := by
  have h : render_weighted_spans idPow "a" [] [] =
      .ok "<span style=\"opacity: nan\">a</span>" := by with_unfolding_all rfl
  refine ⟨h, ?_⟩
  rw [h]
  intro hcontra
  injection hcontra with h2
  exact absurd h2 (by decide)

/-- C2 witness: the amended theorem at the concrete document `"ab"` with
no spans: the aggregated array is `[0, 0]` and both units render with
opacity `nan` and no background colour. -/
theorem c2_witness :
    render_weighted_spans idPow "ab" [] [] =
      .ok (joinAll ("ab".data.map (fun c =>
        "<span style=\"opacity: nan\">" ++ html_escape (String.singleton c) ++ "</span>"))) :=
  c2_zero_range_renders_nan_opacity idPow "ab" [] (by decide) rfl

/-- C7: at `|weight| = weight_range > 0` the relative weight is 1, so the
opacity value is `min_opacity + (1 - min_opacity) = 1` (formatted
`"1.00"`) and the lightness is `min_lightness`, for either call-site
`min_lightness`.  The hypothesis `fpow 1 = 1` is the IEEE-754 guarantee
`pow(1.0, 0.7) = 1.0` for the float power modelled by `fpow`. -/
theorem c7_extreme_weight_opacity_lightness (fpow : ℚ → ℚ) (w r ml : ℚ)
    (hf : fpow 1 = 1) (habs : |w| = r) (hr : 0 < r) :
    _weight_opacity_val w r = 1 ∧
    _weight_opacity w r = "1.00" ∧
    _weight_color_lightness fpow w r ml = ml := by
  have hdiv : |w| / r = 1 := by rw [habs]; exact div_self hr.ne'
  have hval : _weight_opacity_val w r = 1 := by
    rw [_weight_opacity_val, hdiv]; norm_num
  refine ⟨hval, ?_, ?_⟩
  · rw [_weight_opacity, if_neg hr.ne', hval]
    with_unfolding_all decide
  · rw [_weight_color_lightness, hdiv, hf]; ring

/-- C7 witness: the theorem at `w = -2`, `r = 2`, `min_lightness = 3/5`
with the identity standing in for the power (it fixes 1). -/
theorem c7_witness :
    _weight_opacity_val (-2) 2 = 1 ∧
    _weight_opacity (-2) 2 = "1.00" ∧
    _weight_color_lightness idPow (-2) 2 (3 / 5) = 3 / 5 :=
  c7_extreme_weight_opacity_lightness idPow (-2) 2 (3 / 5) rfl (by norm_num) (by norm_num)

/-- C10: `_hue` is a total function with `_hue 0 = 0`, the same value as
for every negative weight; consequently the space-run replacer spans of
`_format_single_feature` at weight exactly 0 carry the same
negative-hue background colour `hsl(0, 80%, 70%)` as for any `w ≤ 0`,
as the concrete feature `"a b"` formatted at weight 0 shows. -/
theorem c10_zero_weight_gets_negative_hue :
    _hue 0 = 0 ∧
    (∀ w : ℚ, w < 0 → _hue w = 0) ∧
    (∀ (w : ℚ) (n : ℕ) (side : Side), w ≤ 0 →
      spaceReplacer w n side = spaceReplacer 0 n side) ∧
    _format_single_feature "a b" 0 =
      "a<span style=\"background-color: hsl(0, 80%, 70%); margin: 0 0.1em 0 0.1em\""
        ++ " title=\"A space symbol\">&emsp;</span>b" := by
  refine ⟨?_, ?_, ?_, ?_⟩
  · with_unfolding_all decide
  · intro w hw; rw [_hue, if_neg (not_lt.mpr hw.le)]
  · intro w n side hw
    rw [spaceReplacer, spaceReplacer, _hue, _hue, if_neg (not_lt.mpr hw),
      if_neg (lt_irrefl 0)]
  · with_unfolding_all rfl

/-- C10 witness: the hue and replacer clauses of the theorem applied at
the concrete negative weights `-3` and `-1`. -/
theorem c10_witness :
    _hue (-3) = 0 ∧ spaceReplacer (-1) 2 Side.center = spaceReplacer 0 2 Side.center :=
  ⟨c10_zero_weight_gets_negative_hue.2.1 (-3) (by norm_num),
   c10_zero_weight_gets_negative_hue.2.2.1 (-1) 2 Side.center (by norm_num)⟩

/-- C9: a candidate list with exactly one candidate renders as the bare
sign-formatted first candidate (no ellipsis element, no tooltip is
appended); a list with further candidates appends exactly one
`&hellip;` span whose `title` is the newline-joined remaining
candidates, each sign-formatted and then individually escaped. -/
theorem c9_unhashed_feature_ellipsis :
    (∀ (c : Candidate) (w : ℚ),
      _format_unhashed_feature [c] w =
        format_signed c (fun x => _format_single_feature x w)) ∧
    (∀ (c : Candidate) (rest : List Candidate) (w : ℚ), rest ≠ [] →
      _format_unhashed_feature (c :: rest) w =
        format_signed c (fun x => _format_single_feature x w) ++ " <span title=\""
          ++ String.intercalate "\n" (rest.map (fun f => html_escape (format_signed f id)))
          ++ "\">&hellip;</span>") := by
  constructor
  · intro c w; rfl
  · intro c rest w hrest
    have hempty : rest.isEmpty = false := by
      cases rest with
      | nil => exact absurd rfl hrest
      | cons a as => rfl
    simp [_format_unhashed_feature, hempty]

/-- C9 witness: the spec's 3-candidate example — the first candidate is
shown, the ellipsis tooltip lists the other two (one of them escaped:
`n<2` becomes `n&lt;2`), newline-joined. -/
theorem c9_witness :
    _format_unhashed_feature [⟨"n1", 1⟩, ⟨"n<2", -1⟩, ⟨"n3", 1⟩] 2 =
      format_signed ⟨"n1", 1⟩ (fun x => _format_single_feature x 2) ++ " <span title=\""
        ++ String.intercalate "\n" (([⟨"n<2", -1⟩, ⟨"n3", 1⟩] : List Candidate).map
            (fun f => html_escape (format_signed f id)))
        ++ "\">&hellip;</span>" :=
  c9_unhashed_feature_ellipsis.2 ⟨"n1", 1⟩ [⟨"n<2", -1⟩, ⟨"n3", 1⟩] 2
    (List.cons_ne_nil _ _)

theorem popFields_eq_filter {α : Type} (shown : List String) :
    ∀ (fieldsALL : List String) (d : List (String × α)),
      popFields fieldsALL shown d =
        d.filter (fun p => !(decide (p.1 ∈ fieldsALL)) || decide (p.1 ∈ shown)) := by
  intro fieldsALL
  induction fieldsALL with
  | nil =>
    intro d
    simp [popFields]
  | cons f fs ih =>
    intro d
    show popFields fs shown (if f ∈ shown then d else dictPop f d) = _
    by_cases hf : f ∈ shown
    · rw [if_pos hf, ih]
      refine List.filter_congr ?_
      intro p hp
      by_cases hpf : p.1 = f
      · simp [hpf, hf]
      · simp [List.mem_cons, hpf]
    · rw [if_neg hf, ih, dictPop, List.filter_filter]
      refine List.filter_congr ?_
      intro p hp
      by_cases hpf : p.1 = f
      · simp [hpf, hf]
      · simp [List.mem_cons, hpf]

/-- C8: `format_as_html` deep-copies the explanation dict, pops the
fields of `fields.ALL` missing from `show` on the copy only, and hands
the filtered copy to the (external) template: the caller-owned
explanation object at heap position `r` is unchanged after the call —
including its fields not in `show` — and the dict that reaches the
template keeps exactly the entries whose key is requested or is not a
member of `fields.ALL` at all. -/
theorem c8_format_as_html_no_mutation {α : Type} (fieldsALL shown : List String)
    (heap : DictHeap α) (r : ℕ) (hr : r < heap.length) :
    (format_as_html fieldsALL shown heap r).1.getD r [] = heap.getD r [] ∧
    (format_as_html fieldsALL shown heap r).2 =
      (heap.getD r []).filter
        (fun p => !(decide (p.1 ∈ fieldsALL)) || decide (p.1 ∈ shown)) := by
  have hne : heap.length ≠ r := Nat.ne_of_gt hr
  have hexpl : (heap ++ [heap.getD r []])[heap.length]? = some (heap.getD r []) :=
    List.getElem?_concat_length ..
  have hexplD : (heap ++ [heap.getD r []]).getD heap.length [] = heap.getD r [] := by
    rw [List.getD_eq_getElem?_getD, hexpl]
    rfl
  constructor
  · show (((heap ++ [heap.getD r []]).set heap.length
        (popFields fieldsALL shown
          ((heap ++ [heap.getD r []]).getD heap.length []))).getD r []) = heap.getD r []
    rw [List.getD_eq_getElem?_getD, List.getElem?_set_ne hne,
      List.getElem?_append_left hr, ← List.getD_eq_getElem?_getD]
  · show ((heap ++ [heap.getD r []]).set heap.length
        (popFields fieldsALL shown
          ((heap ++ [heap.getD r []]).getD heap.length []))).getD heap.length [] = _
    rw [List.getD_eq_getElem?_getD,
      List.getElem?_set_self (by simp)]
    rw [Option.getD_some, hexplD, popFields_eq_filter]

/-- C8 witness: a heap holding one explanation dict with fields `a`, `b`;
`fields.ALL = [a, c]` and `show = [c]`: after the call the caller's dict
still holds both fields, while the template receives only `b` (the field
`a` was dropped; `b` is outside `fields.ALL` and survives). -/
theorem c8_witness :
    (format_as_html ["a", "c"] ["c"] [[("a", "1"), ("b", "2")]] 0).1.getD 0 [] =
      ([[("a", "1"), ("b", "2")]] : DictHeap String).getD 0 [] ∧
    (format_as_html ["a", "c"] ["c"] [[("a", "1"), ("b", "2")]] 0).2 =
      (([[("a", "1"), ("b", "2")]] : DictHeap String).getD 0 []).filter
        (fun p => !(decide (p.1 ∈ ["a", "c"])) || decide (p.1 ∈ ["c"])) :=
  c8_format_as_html_no_mutation ["a", "c"] ["c"] [[("a", "1"), ("b", "2")]] 0
    (by decide)

/-- C6: exactly the not-found features past the zero tolerance
(`not np.isclose(weight, 0.)`, i.e. `|weight| > 1e-8`) are rendered; the
rendered list is a permutation of that filtered set, strictly sorted by
feature id (Python's `sorted` on `(feature, weight)` pairs, with the
dict's keys distinct); each is styled by the same `_colorize` used for
document tokens and the block is joined with single spaces; the final
output is that block, one separator space, then the concatenation of the
per-unit renderings — and just the per-unit concatenation when the
filtered set is empty. -/
theorem c6_not_found_block_structure (fpow : ℚ → ℚ) (doc : String)
    (spans : List WSpan) (nf : List (String × ℚ)) (hdoc : doc ≠ "")
    (hkeys : (nf.map Prod.fst).Nodup) :
    (notFoundWeights nf).Perm (nf.filter (fun p => !isCloseZero p.2)) ∧
    (notFoundWeights nf).Pairwise (fun a b => a.1 < b.1) ∧
    ∃ wr, weightRange (charWeights doc.length spans) (notFoundWeights nf) = .ok wr ∧
      render_weighted_spans fpow doc spans nf =
        .ok (if (notFoundWeights nf).isEmpty then
              joinAll ((doc.data.zip (charWeights doc.length spans)).map
                (fun p => _colorize fpow (String.singleton p.1) p.2 wr))
            else
              joinSep " " ((notFoundWeights nf).map
                (fun p => _colorize fpow p.1 p.2 wr)) ++ " " ++
              joinAll ((doc.data.zip (charWeights doc.length spans)).map
                (fun p => _colorize fpow (String.singleton p.1) p.2 wr))) := by
  have hperm : (notFoundWeights nf).Perm (nf.filter (fun p => !isCloseZero p.2)) :=
    List.perm_insertionSort pairLe _
  refine ⟨hperm, ?_, ?_⟩
  · have hsorted : (notFoundWeights nf).Pairwise pairLe :=
      List.sorted_insertionSort pairLe _
    have hsub : List.Sublist ((nf.filter (fun p => !isCloseZero p.2)).map Prod.fst)
        (nf.map Prod.fst) := (List.filter_sublist nf).map Prod.fst
    have hnodup_s : ((notFoundWeights nf).map Prod.fst).Nodup := by
      rw [(hperm.map Prod.fst).nodup_iff]
      exact hkeys.sublist hsub
    have hne : (notFoundWeights nf).Pairwise (fun a b => a.1 ≠ b.1) :=
      List.pairwise_map.mp hnodup_s
    refine (hsorted.and hne).imp ?_
    intro a b hab
    rcases hab with ⟨hle | ⟨heq, _⟩, hne'⟩
    · exact hle
    · exact absurd heq hne'
  · have hlen : (charWeights doc.length spans).length = doc.length :=
      length_charWeights doc.length spans
    cases hcw : charWeights doc.length spans with
    | nil =>
      rw [hcw] at hlen
      exact absurd (string_eq_empty_of_length_eq_zero doc hlen.symm) hdoc
    | cons x xs =>
      cases hnfw : notFoundWeights nf with
      | nil =>
        refine ⟨listMax |x| (xs.map (fun v => |v|)), ?_, ?_⟩
        · rfl
        · simp only [render_weighted_spans, hcw, hnfw, weightRange, List.isEmpty_nil,
            if_true]
      | cons y ys =>
        refine ⟨max (listMax |x| (xs.map (fun v => |v|)))
            (listMax |y.2| (ys.map (fun p => |p.2|))), ?_, ?_⟩
        · rfl
        · simp only [render_weighted_spans, hcw, hnfw, weightRange, List.isEmpty_cons,
            if_false]

/-- C6 witness: the theorem at document `"x"`, no spans, and not-found
mapping `{b: 1, a: -2}` (distinct keys): both weights pass the
tolerance; the rendered not-found list is a permutation of the filtered
pairs, strictly sorted by feature id (`a` before `b`). -/
theorem c6_witness :
    (notFoundWeights [("b", 1), ("a", -2)]).Perm
      (([("b", 1), ("a", -2)] : List (String × ℚ)).filter (fun p => !isCloseZero p.2)) ∧
    (notFoundWeights [("b", 1), ("a", -2)]).Pairwise (fun a b => a.1 < b.1) := by
  have h := c6_not_found_block_structure idPow "x" [] [("b", 1), ("a", -2)]
    (by decide) (by decide)
  exact ⟨h.1, h.2.1⟩

/-- Number of occurrences of character `c` in string `s`. -/
def countCh (c : Char) (s : String) : ℕ := s.data.count c

/-- `s` contains none of the three markup-critical characters `<`, `>`,
`"`. -/
def SafeData (s : String) : Prop := ∀ x ∈ s.data, x ≠ '<' ∧ x ≠ '>' ∧ x ≠ '"'

instance (s : String) : Decidable (SafeData s) := by
  unfold SafeData; exact inferInstance

theorem safe_digits : ∀ y ∈ ("0123456789").data, y ≠ '<' ∧ y ≠ '>' ∧ y ≠ '"' := by
  decide

theorem countCh_append (c : Char) (a b : String) :
    countCh c (a ++ b) = countCh c a + countCh c b := by
  rw [countCh, countCh, countCh, String.data_append, List.count_append]

theorem safeData_append (a b : String) (ha : SafeData a) (hb : SafeData b) :
    SafeData (a ++ b) := by
  intro x hx
  rw [String.data_append, List.mem_append] at hx
  rcases hx with h | h
  · exact ha x h
  · exact hb x h

theorem mkDigit_mem_digits (m : ℕ) : mkDigit m ∈ ("0123456789").data := by
  have h : m % 10 < 10 := Nat.mod_lt _ (by norm_num)
  rw [mkDigit]
  set k := m % 10 with hk
  interval_cases k <;> decide

theorem natDigitsAux_subset :
    ∀ f n, ∀ c ∈ natDigitsAux f n, c ∈ ("0123456789").data := by
  intro f
  induction f with
  | zero => intro n c hc; simp [natDigitsAux] at hc
  | succ f ih =>
    intro n c hc
    rw [natDigitsAux] at hc
    by_cases h : n < 10
    · rw [if_pos h] at hc
      simp at hc
      rw [hc]
      exact mkDigit_mem_digits n
    · rw [if_neg h] at hc
      rcases List.mem_append.mp hc with h1 | h1
      · exact ih _ c h1
      · simp at h1
        rw [h1]
        exact mkDigit_mem_digits _

theorem safeData_natStr (n : ℕ) : SafeData (natStr n) := fun x hx =>
  safe_digits x (natDigitsAux_subset (n + 1) n x hx)

theorem safeData_intStr (i : ℤ) : SafeData (intStr i) := by
  rw [intStr]
  split_ifs
  · exact safeData_append _ _ (by decide) (safeData_natStr _)
  · exact safeData_natStr _

theorem safeData_padZeros (p : ℕ) (s : String) (hs : SafeData s) :
    SafeData (padZeros p s) := by
  refine safeData_append _ _ ?_ hs
  intro x hx
  have : x = '0' := by
    have := List.eq_of_mem_replicate hx
    exact this
  rw [this]
  decide

theorem safeData_formatFixed (p : ℕ) (q : ℚ) : SafeData (formatFixed p q) := by
  rw [formatFixed]
  refine safeData_append _ _ (safeData_append _ _ (safeData_append _ _ ?_
    (safeData_natStr _)) (by decide)) (safeData_padZeros _ _ (safeData_natStr _))
  split_ifs <;> decide

theorem safeData_formatPct (q : ℚ) : SafeData (formatPct q) :=
  safeData_append _ _ (safeData_formatFixed 2 (q * 100)) (by decide)

theorem safeData_weight_opacity (w wr : ℚ) : SafeData (_weight_opacity w wr) := by
  rw [_weight_opacity]
  split_ifs
  · decide
  · decide
  · exact safeData_formatFixed _ _

theorem safeData_weight_color (fpow : ℚ → ℚ) (w wr ml : ℚ) :
    SafeData (_weight_color fpow w wr ml) := by
  rw [_weight_color]
  refine safeData_append _ _ (safeData_append _ _ (safeData_append _ _
    (safeData_append _ _ (safeData_append _ _ (safeData_append _ _ (by decide)
      (safeData_intStr _)) (by decide)) (safeData_formatPct _)) (by decide))
    (safeData_formatPct _)) (by decide)

theorem safeData_joinAll (l : List String) (h : ∀ s ∈ l, SafeData s) :
    SafeData (joinAll l) := by
  induction l with
  | nil => intro x hx; simp [joinAll] at hx
  | cons a as ih =>
    rw [joinAll]
    exact safeData_append _ _ (h a (by simp)) (ih (fun s hs => h s (by simp [hs])))

theorem safeData_escapeChar (t : Char) : SafeData (escapeChar t) := by
  rw [escapeChar]
  split_ifs with h1 h2 h3 h4
  · decide
  · decide
  · decide
  · decide
  · intro x hx
    have hxt : x = t := by
      simpa [String.singleton] using hx
    rw [hxt]
    exact ⟨h2, h3, h4⟩

theorem safeData_html_escape (t : String) : SafeData (html_escape t) := by
  rw [html_escape]
  refine safeData_joinAll _ ?_
  intro s hs
  rcases List.mem_map.mp hs with ⟨c, _, rfl⟩
  exact safeData_escapeChar c

theorem countCh_eq_zero_of_safeData (s : String) (h : SafeData s) :
    countCh '<' s = 0 ∧ countCh '>' s = 0 ∧ countCh '"' s = 0 := by
  refine ⟨?_, ?_, ?_⟩ <;>
    [exact List.count_eq_zero.mpr (fun hm => (h _ hm).1 rfl);
     exact List.count_eq_zero.mpr (fun hm => (h _ hm).2.1 rfl);
     exact List.count_eq_zero.mpr (fun hm => (h _ hm).2.2 rfl)]

theorem countCh_joinAll (c : Char) :
    ∀ l : List String, countCh c (joinAll l) = (l.map (countCh c)).sum := by
  intro l
  induction l with
  | nil => rfl
  | cons a as ih => rw [joinAll, countCh_append, ih, List.map_cons, List.sum_cons]

theorem countCh_joinSep (c : Char) (sep : String) (hsep : countCh c sep = 0) :
    ∀ l : List String, countCh c (joinSep sep l) = (l.map (countCh c)).sum := by
  intro l
  induction l with
  | nil => rfl
  | cons a as ih =>
    cases as with
    | nil => simp [joinSep]
    | cons b bs =>
      rw [joinSep, countCh_append, countCh_append, hsep, ih]
      simp only [List.map_cons, List.sum_cons]
      omega

theorem countCh_colorize (fpow : ℚ → ℚ) (tok : String) (w wr : ℚ) :
    countCh '<' (_colorize fpow tok w wr) = 2 ∧
    countCh '>' (_colorize fpow tok w wr) = 2 := by
  have hesc := countCh_eq_zero_of_safeData _ (safeData_html_escape tok)
  have hop := countCh_eq_zero_of_safeData _ (safeData_weight_opacity w wr)
  have hcol := countCh_eq_zero_of_safeData _ (safeData_weight_color fpow w wr (3 / 5))
  have hff := countCh_eq_zero_of_safeData _ (safeData_formatFixed 3 w)
  rw [_colorize]
  split_ifs
  · constructor
    · simp only [countCh_append, hop.1, hesc.1]; decide
    · simp only [countCh_append, hop.2.1, hesc.2.1]; decide
  · constructor
    · simp only [countCh_append, hcol.1, hop.1, hff.1, hesc.1]; decide
    · simp only [countCh_append, hcol.2.1, hop.2.1, hff.2.1, hesc.2.1]; decide

theorem sum_map_countCh_two {β : Type} (c : Char) (g : β → String) :
    ∀ l : List β, (∀ x ∈ l, countCh c (g x) = 2) →
      (l.map (fun x => countCh c (g x))).sum = 2 * l.length := by
  intro l
  induction l with
  | nil => intro _; rfl
  | cons a as ih =>
    intro h
    rw [List.map_cons, List.sum_cons, h a (by simp), ih (fun x hx => h x (by simp [hx])),
      List.length_cons]
    ring

theorem countCh_joinAll_two {β : Type} (c : Char) (g : β → String) (l : List β)
    (h : ∀ x ∈ l, countCh c (g x) = 2) : countCh c (joinAll (l.map g)) = 2 * l.length := by
  rw [countCh_joinAll, List.map_map]
  have hcomp : (countCh c ∘ g) = fun x => countCh c (g x) := rfl
  rw [hcomp]
  exact sum_map_countCh_two c g l h

theorem countCh_joinSep_two {β : Type} (c : Char) (g : β → String) (sep : String)
    (hsep : countCh c sep = 0) (l : List β) (h : ∀ x ∈ l, countCh c (g x) = 2) :
    countCh c (joinSep sep (l.map g)) = 2 * l.length := by
  rw [countCh_joinSep c sep hsep, List.map_map]
  have hcomp : (countCh c ∘ g) = fun x => countCh c (g x) := rfl
  rw [hcomp]
  exact sum_map_countCh_two c g l h

/-- C3 (amended): the escaping function replaces every occurrence of the
FOUR characters `&`, `<`, `>`, `"` — `cgi.escape(text, quote=True)` does
not touch the apostrophe — and it is applied on every text-producing
path of the renderer: the escaped text contains no `<`, `>` or `"` at
all, and in the full rendered output every `<` and `>` comes from the
fixed `<span ...>`/`</span>` wrappers — exactly two of each per rendered
token (document units plus filtered not-found features), independent of
the input text. -/
theorem c3_markup_only_from_templates (fpow : ℚ → ℚ) (doc : String)
    (spans : List WSpan) (nf : List (String × ℚ)) (s : String)
    (hok : render_weighted_spans fpow doc spans nf = .ok s) :
    countCh '<' s = 2 * ((notFoundWeights nf).length + doc.length) ∧
    countCh '>' s = 2 * ((notFoundWeights nf).length + doc.length) ∧
    (∀ t : String, countCh '<' (html_escape t) = 0 ∧
      countCh '>' (html_escape t) = 0 ∧ countCh '"' (html_escape t) = 0) := by
  have hescape : ∀ t : String, countCh '<' (html_escape t) = 0 ∧
      countCh '>' (html_escape t) = 0 ∧ countCh '"' (html_escape t) = 0 :=
    fun t => countCh_eq_zero_of_safeData _ (safeData_html_escape t)
  have hlen : (charWeights doc.length spans).length = doc.length :=
    length_charWeights doc.length spans
  cases hcw : charWeights doc.length spans with
  | nil =>
    rw [render_weighted_spans] at hok
    rw [hcw] at hok
    simp [weightRange] at hok
  | cons x xs =>
    have hzip : (doc.data.zip (x :: xs)).length = doc.length := by
      rw [List.length_zip]
      rw [hcw] at hlen
      have hdata : doc.data.length = doc.length := rfl
      omega
    cases hnfw : notFoundWeights nf with
    | nil =>
      rw [render_weighted_spans, hcw, hnfw] at hok
      simp only [weightRange, List.isEmpty_nil, if_true] at hok
      injection hok with hs
      subst hs
      refine ⟨?_, ?_, hescape⟩
      · rw [countCh_joinAll_two _ _ _
          (fun p _ => (countCh_colorize fpow (String.singleton p.1) p.2 _).1), hzip]
        simp
      · rw [countCh_joinAll_two _ _ _
          (fun p _ => (countCh_colorize fpow (String.singleton p.1) p.2 _).2), hzip]
        simp
    | cons y ys =>
      rw [render_weighted_spans, hcw, hnfw] at hok
      simp only [weightRange, List.isEmpty_cons, if_false] at hok
      injection hok with hs
      subst hs
      simp only [Bool.false_eq_true, if_false]
      refine ⟨?_, ?_, hescape⟩
      · rw [countCh_append, countCh_append,
          countCh_joinSep_two _ _ _ (by decide) _
            (fun p _ => (countCh_colorize fpow p.1 p.2 _).1),
          countCh_joinAll_two _ _ _
            (fun p _ => (countCh_colorize fpow (String.singleton p.1) p.2 _).1), hzip]
        have hsp : countCh '<' " " = 0 := by decide
        rw [hsp]
        omega
      · rw [countCh_append, countCh_append,
          countCh_joinSep_two _ _ _ (by decide) _
            (fun p _ => (countCh_colorize fpow p.1 p.2 _).2),
          countCh_joinAll_two _ _ _
            (fun p _ => (countCh_colorize fpow (String.singleton p.1) p.2 _).2), hzip]
        have hsp : countCh '>' " " = 0 := by decide
        rw [hsp]
        omega

/-- C3 counterexample: the escaping function does NOT replace the
apostrophe (character 39) — `cgi.escape` handles only `&`, `<`, `>`,
`"` — and a document containing an apostrophe renders with that
apostrophe passed through verbatim into the output markup. -/
theorem c3_counterexample :
    html_escape (String.singleton (Char.ofNat 39)) = String.singleton (Char.ofNat 39) ∧
    render_weighted_spans idPow (String.singleton (Char.ofNat 39) ++ "x")
        [⟨"f", [(1, 2)], 1⟩] [] =
      .ok ("<span style=\"opacity: 0.80\">" ++ String.singleton (Char.ofNat 39)
        ++ "</span><span style=\"background-color: hsl(120, 100.00%, 60.00%);"
        ++ " opacity: 1.00\" title=\"1.000\">x</span>") := by
  constructor
  · with_unfolding_all rfl
  · with_unfolding_all rfl

/-- C3 witness: the amended theorem at the concrete rendering of `"ab"`
with no spans and no not-found weights: the output has exactly
`2 * (0 + 2) = 4` occurrences of `<`. -/
theorem c3_witness :
    render_weighted_spans idPow "ab" [] [] =
      .ok "<span style=\"opacity: nan\">a</span><span style=\"opacity: nan\">b</span>" ∧
    countCh '<'
        "<span style=\"opacity: nan\">a</span><span style=\"opacity: nan\">b</span>" =
      2 * ((notFoundWeights ([] : List (String × ℚ))).length + "ab".length) := by
  have h : render_weighted_spans idPow "ab" [] [] =
      .ok "<span style=\"opacity: nan\">a</span><span style=\"opacity: nan\">b</span>" := by
    with_unfolding_all rfl
  exact ⟨h, (c3_markup_only_from_templates idPow "ab" [] [] _ h).1⟩
